import Mathlib

/-!
Verification of `tools/hiddenapi/generate_hiddenapi_lists.py`.

The script is Python 2 (it uses the builtin `reduce`, and relies on `map` /
`filter` returning lists, which it consumes several times and uses for eager
mutation).  We model:

  * Python strings as Lean `String`, with the string methods the script uses
    (`strip`, `startswith`, `split(',')`, lexicographic `<` by code points)
    re-implemented by structural recursion over the character list so that
    everything kernel-evaluates;
  * a Python `dict` mapping API signatures to tag sets as an association list
    `List (String × List String)` with unique keys (Python 2 dicts are
    unordered, so any key order is a faithful model); a Python `set` of tags
    as a duplicate-free `List String` where `set.add` appends only when the
    element is missing;
  * fallible operations (the script's `assert`s) as `Option`-returning
    functions: `none` is an `AssertionError` aborting the run, and a failing
    call produces no mutated dictionary.
-/

/-- Python `str.isspace` characters stripped by `str.strip()`. -/
def isPySpace (c : Char) : Bool :=
  c = ' ' || c = '\t' || c = '\n' || c = '\r' || c = '\x0b' || c = '\x0c'

/-- Python `str.strip()`: drop leading and trailing whitespace. -/
def pyStrip (s : String) : String :=
  String.mk (((s.data.dropWhile isPySpace).reverse.dropWhile isPySpace).reverse)

/-- Bool-valued prefix test on character lists. -/
def isPrefixOfChars : List Char → List Char → Bool
  | [], _ => true
  | _ :: _, [] => false
  | a :: as, b :: bs => a = b && isPrefixOfChars as bs

/-- Python `s.startswith(p)`. -/
def pyStartsWith (s p : String) : Bool := isPrefixOfChars p.data s.data

/-- Python `s.endswith(p)` (used to model the regex anchor). -/
def pyEndsWith (s p : String) : Bool := isPrefixOfChars p.data.reverse s.data.reverse

/-- Helper for Python `s.split(',')`: accumulates the current field reversed. -/
def splitCommaAux : List Char → List Char → List (List Char)
  | [], acc => [acc.reverse]
  | c :: rest, acc =>
      if c = ',' then acc.reverse :: splitCommaAux rest [] else splitCommaAux rest (c :: acc)

/-- Python `s.split(',')`: split on every comma; `"".split(',') == [""]`. -/
def pySplitComma (s : String) : List String := (splitCommaAux s.data []).map String.mk

/-- Strict lexicographic order on character lists by code point, as Python
compares strings (a proper prefix is smaller). -/
def charListLt : List Char → List Char → Bool
  | [], [] => false
  | [], _ :: _ => true
  | _ :: _, [] => false
  | a :: as, b :: bs => if a < b then true else if b < a then false else charListLt as bs

/-- Python `a < b` on strings. -/
def pyStrLt (a b : String) : Bool := charListLt a.data b.data

/-- The non-strict order used by Python's `sorted` (sorted output is
non-decreasing under it). -/
def pyLe (a b : String) : Prop := pyStrLt b a = false

instance pyLe.decidableRel : DecidableRel pyLe := fun a b => by
  unfold pyLe; infer_instance

/-- Python `','.join(parts)`. -/
def joinComma : List String → String
  | [] => ""
  | [s] => s
  | s :: rest => s ++ "," ++ joinComma rest

/-! Tag constants of the script. -/

def TAG_WHITELIST : String := "whitelist"

def TAG_GREYLIST : String := "greylist"

def TAG_BLACKLIST : String := "blacklist"

def TAG_GREYLIST_MAX_O : String := "greylist-max-o"

def TAG_GREYLIST_MAX_P : String := "greylist-max-p"

/-- List of all known tags. -/
def TAGS : List String :=
  [TAG_WHITELIST, TAG_GREYLIST, TAG_BLACKLIST, TAG_GREYLIST_MAX_O, TAG_GREYLIST_MAX_P]

/-- The literal alternatives of `SERIALIZATION_PATTERNS` (each source pattern
is a regex-escaped literal). -/
def SERIALIZATION_PATTERNS : List String :=
  [ "readObject(Ljava/io/ObjectInputStream;)V",
    "readObjectNoData()V",
    "readResolve()Ljava/lang/Object;",
    "serialVersionUID:J",
    "serialPersistentFields:[Ljava/io/ObjectStreamField;",
    "writeObject(Ljava/io/ObjectOutputStream;)V",
    "writeReplace()Ljava/lang/Object;" ]

/-- Python's `$` in `re.match` also matches just before a single trailing
newline; strip that newline if present. -/
def regexDollarStrip (s : String) : String :=
  if pyEndsWith s "\n" then String.mk s.data.dropLast else s

/-- `SERIALIZATION_REGEX.match(s)`: the regex is `.*->(alt1|...|altN)$` where
`.` does not match a newline, so `s` (up to one trailing newline eaten by `$`)
must end with `"->" ++ alt` with no newline in the part matched by `.*`. -/
def matchesSerializationRegex (s : String) : Bool :=
  let t := regexDollarStrip s
  SERIALIZATION_PATTERNS.any (fun p =>
    pyEndsWith t ("->" ++ p) &&
      !((t.data.take (t.data.length - ("->" ++ p).data.length)).any (fun c => c = '\n')))

/-- Predicate `IS_UNASSIGNED = lambda api, tags: not tags`. -/
def IS_UNASSIGNED (_api : String) (tags : List String) : Bool := tags.isEmpty

/-- Predicate `IS_SERIALIZATION = lambda api, tags: SERIALIZATION_REGEX.match(api)`. -/
def IS_SERIALIZATION (api : String) (_tags : List String) : Bool :=
  matchesSerializationRegex api

/-! The dictionary model. -/

/-- The script's `entries_dict`: an association list from API signature to its
tag set. -/
abbrev EntriesDict := List (String × List String)

/-- Key list of a dictionary (`entries_dict.keys()`). -/
def dictKeys (d : EntriesDict) : List String := d.map Prod.fst

/-- Python `d[key]` as a partial lookup: the first binding of `key`. -/
def dictLookup : EntriesDict → String → Option (List String)
  | [], _ => none
  | (k, v) :: rest, key => if k = key then some v else dictLookup rest key

/-- In-place mutation `f` of the value bound to `key` (no-op on an absent key;
the script only mutates keys it has validated to be present). -/
def dictUpdate : EntriesDict → String → (List String → List String) → EntriesDict
  | [], _, _ => []
  | (k, v) :: rest, key, f =>
      if k = key then (k, f v) :: rest else (k, v) :: dictUpdate rest key f

/-- Python `tags.add(t)`: a set add, appending only when absent. -/
def setAdd (tags : List String) (t : String) : List String :=
  if tags.contains t then tags else tags ++ [t]

/-- Dict comprehension `{ x: <tags> for x in entries }`: one binding per
distinct entry, all bound to `tags` (each gets its own fresh set in Python;
values are immutable here so sharing is irrelevant, and Python 2 dicts are
unordered so any key order is faithful). -/
def dict_from_keys (tags : List String) : List String → EntriesDict
  | [] => []
  | e :: rest =>
      if rest.contains e then dict_from_keys tags rest
      else (e, tags) :: dict_from_keys tags rest

/-! The script's functions, in source order. -/

/-- Source `read_lines`: keep lines not starting with `'#'` (tested on the raw
line), then `strip()` each survivor.  A file is modelled as its list of lines. -/
def read_lines (lines : List String) : List String :=
  (lines.filter (fun line => !(pyStartsWith line "#"))).map pyStrip

/-- Source `check_entries_set`: assert that every key of `keys_subset` is a key
of `entries_dict`.  `true` means the assertion passes. -/
def check_entries_set (keys_subset : List String) (entries_dict : EntriesDict) : Bool :=
  keys_subset.all (fun k => (dictKeys entries_dict).contains k)

/-- Source `check_tags_set`: assert that every tag is one of `TAGS`. -/
def check_tags_set (tags_subset : List String) : Bool :=
  tags_subset.all (fun t => TAGS.contains t)

/-- Source `filter_dict_keys`: keys of the dict whose key/value pair satisfies
the predicate. -/
def filter_dict_keys (filter_fn : String → List String → Bool)
    (entries_dict : EntriesDict) : List String :=
  (entries_dict.filter (fun kv => filter_fn kv.1 kv.2)).map Prod.fst

/-- Source `merge_two_disjoint_dicts`: asserts key sets are disjoint, then
`z = x.copy(); z.update(y)`. -/
def merge_two_disjoint_dicts (x y : EntriesDict) : Option EntriesDict :=
  if (dictKeys x).all (fun k => !((dictKeys y).contains k)) then some (x ++ y) else none

/-- Source `get_valid_subset_of_unassigned_keys`:
`set(entries_subset).intersection(filter_dict_keys(IS_UNASSIGNED, entries_dict))`
(a set; only membership is consumed downstream, so we keep list order). -/
def get_valid_subset_of_unassigned_keys (entries_subset : List String)
    (entries_dict : EntriesDict) : List String :=
  let unassigned_keys := filter_dict_keys IS_UNASSIGNED entries_dict
  entries_subset.filter (fun e => unassigned_keys.contains e)

/-- The line `generate_csv` builds for one entry:
`",".join([api] + sorted(tags)) + "\n"`. -/
def csv_line (api : String) (tags : List String) : String :=
  joinComma (api :: List.insertionSort pyLe tags) ++ "\n"

/-- Source `generate_csv`: `sorted(map(csv_line, entries_dict))` — the final
`sorted` sorts the complete lines as strings (Python's stable sort, modelled by
insertion sort over the same order). -/
def generate_csv (entries_dict : EntriesDict) : List String :=
  List.insertionSort pyLe (entries_dict.map (fun kv => csv_line kv.1 kv.2))

/-- Source `parse_csv`: split each line on commas, check all keys are known and
all tags are registered (Python 2 `map` is eager, so both checks complete
before any mutation), then union each row's tags into its entry's set. -/
def parse_csv (csv_lines : List String) (entries_dict : EntriesDict) : Option EntriesDict :=
  if check_entries_set ((csv_lines.map pySplitComma).map (fun csv => csv.headD "")) entries_dict
      && check_tags_set ((csv_lines.map pySplitComma).map List.tail).flatten then
    some ((csv_lines.map pySplitComma).foldl
      (fun d csv => dictUpdate d (csv.headD "") (fun ts => csv.tail.foldl setAdd ts))
      entries_dict)
  else none

/-- Source `assign_tag`: check all entries exist and the tag is known, then add
the tag to every named entry's set. -/
def assign_tag (tag : String) (entries_subset : List String)
    (entries_dict : EntriesDict) : Option EntriesDict :=
  if check_entries_set entries_subset entries_dict && check_tags_set [tag] then
    some (entries_subset.foldl
      (fun d api => dictUpdate d api (fun ts => setAdd ts tag)) entries_dict)
  else none

/-! The `main` pipeline.  Input files are modelled as raw line lists (the
pipeline applies `read_lines` wherever `main` does); the text files of each
tag are given as functions from tag to list of files, iterated in `TAGS`
order as `main` does. -/

/-- Steps (1)–(3) of `main`'s bootstrap: build the public dict (every entry
tagged `{whitelist}`), the private dict (no tags), and merge them. -/
def build_universe (public_lines private_lines : List String) : Option EntriesDict :=
  merge_two_disjoint_dicts
    (dict_from_keys [TAG_WHITELIST] (read_lines public_lines))
    (dict_from_keys [] (read_lines private_lines))

/-- The final pass of `main`: assign `blacklist` to all remaining unassigned
entries. -/
def catch_all_step (entries_dict : EntriesDict) : Option EntriesDict :=
  assign_tag TAG_BLACKLIST (filter_dict_keys IS_UNASSIGNED entries_dict) entries_dict

/-- Everything `main` does between reading the inputs and the catch-all:
universe construction, serialization auto-classification, CSV merges, strict
tag-file passes, lenient (`-ignore-conflicts`) passes. -/
def main_before_catch_all (public_lines private_lines : List String)
    (csv_files : List (List String))
    (tag_files conflict_files : String → List (List String)) : Option EntriesDict := do
  let d ← build_universe public_lines private_lines
  let d ← assign_tag TAG_WHITELIST (filter_dict_keys IS_SERIALIZATION d) d
  let d ← csv_files.foldlM (fun d f => parse_csv (read_lines f) d) d
  let d ← TAGS.foldlM (fun d tag =>
      (tag_files tag).foldlM (fun d f => assign_tag tag (read_lines f) d) d) d
  let d ← TAGS.foldlM (fun d tag =>
      (conflict_files tag).foldlM (fun d f =>
        assign_tag tag (get_valid_subset_of_unassigned_keys (read_lines f) d) d) d) d
  pure d

/-- The whole of `main` up to `generate_csv`: the pre-catch-all passes followed
by the catch-all. -/
def main_pipeline (public_lines private_lines : List String)
    (csv_files : List (List String))
    (tag_files conflict_files : String → List (List String)) : Option EntriesDict :=
  (main_before_catch_all public_lines private_lines csv_files tag_files conflict_files).bind
    catch_all_step


/-! Basic lemmas about the set and dictionary model. -/

/-- Bool `contains` on string lists agrees with membership. -/
lemma contains_iff {l : List String} {a : String} : l.contains a = true ↔ a ∈ l := by
  simp

/-- Membership after a set add. -/
lemma mem_setAdd {ts : List String} {t t' : String} :
    t' ∈ setAdd ts t ↔ t' ∈ ts ∨ t' = t := by
  by_cases h : ts.contains t
  · rw [contains_iff] at h
    simp only [setAdd, h]
    simp only [contains_iff.mpr h, if_true]
    constructor
    · exact Or.inl
    · rintro (h' | rfl)
      · exact h'
      · exact h
  · simp only [setAdd, h, if_neg, Bool.false_eq_true, not_false_iff, if_false]
    simp [List.mem_append]

/-- Adding a tag already present is a no-op. -/
lemma setAdd_of_mem {ts : List String} {t : String} (h : t ∈ ts) : setAdd ts t = ts := by
  simp [setAdd, h]

/-- The added tag is present afterwards. -/
lemma mem_setAdd_self {ts : List String} {t : String} : t ∈ setAdd ts t :=
  mem_setAdd.mpr (Or.inr rfl)

/-- Set add is idempotent. -/
lemma setAdd_setAdd {ts : List String} {t : String} :
    setAdd (setAdd ts t) t = setAdd ts t :=
  setAdd_of_mem mem_setAdd_self

/-- A nonempty set stays nonempty under add. -/
lemma setAdd_ne_nil {ts : List String} {t : String} : setAdd ts t ≠ [] := by
  intro h
  have := @mem_setAdd_self ts t
  simp [h] at this

/-- Membership in a fold of set adds. -/
lemma mem_foldl_setAdd (l : List String) (ts : List String) (t : String) :
    t ∈ l.foldl setAdd ts ↔ t ∈ ts ∨ t ∈ l := by
  induction l generalizing ts with
  | nil => simp
  | cons a l ih =>
      simp only [List.foldl_cons, ih, mem_setAdd, List.mem_cons]
      tauto

/-- Updating a key does not change the key list. -/
lemma dictKeys_dictUpdate (d : EntriesDict) (k : String) (f : List String → List String) :
    dictKeys (dictUpdate d k f) = dictKeys d := by
  induction d with
  | nil => rfl
  | cons kv rest ih =>
      obtain ⟨a, v⟩ := kv
      by_cases h : a = k <;> simp [dictUpdate, dictKeys, h] <;>
        simpa [dictKeys] using ih

/-- Lookup after an update of one key. -/
lemma dictLookup_dictUpdate (d : EntriesDict) (k : String) (f : List String → List String)
    (e : String) :
    dictLookup (dictUpdate d k f) e =
      if e = k then (dictLookup d e).map f else dictLookup d e := by
  induction d with
  | nil => simp [dictUpdate, dictLookup]
  | cons kv rest ih =>
      obtain ⟨a, v⟩ := kv
      by_cases hak : a = k
      · subst hak
        by_cases hae : a = e
        · subst hae
          simp [dictUpdate, dictLookup]
        · simp [dictUpdate, dictLookup, hae, Ne.symm hae]
      · by_cases hae : a = e
        · have hek : ¬ (e = k) := fun h => hak (hae.trans h)
          simp [dictUpdate, dictLookup, hak, hae, hek]
        · simp [dictUpdate, dictLookup, hak, hae, ih]

/-- A key is absent exactly when lookup fails. -/
lemma dictLookup_eq_none_iff {d : EntriesDict} {e : String} :
    dictLookup d e = none ↔ e ∉ dictKeys d := by
  induction d with
  | nil => simp [dictLookup, dictKeys]
  | cons kv rest ih =>
      obtain ⟨a, v⟩ := kv
      by_cases h : a = e
      · subst h
        simp [dictLookup, dictKeys]
      · simp [dictLookup, dictKeys, h, ih, Ne.symm h]

/-- A key is present exactly when lookup succeeds. -/
lemma mem_dictKeys_iff_lookup {d : EntriesDict} {e : String} :
    e ∈ dictKeys d ↔ ∃ ts, dictLookup d e = some ts := by
  constructor
  · intro h
    cases hl : dictLookup d e with
    | none => exact absurd (dictLookup_eq_none_iff.mp hl) (not_not.mpr h)
    | some ts => exact ⟨ts, rfl⟩
  · rintro ⟨ts, h⟩
    by_contra hmem
    rw [← dictLookup_eq_none_iff] at hmem
    simp [hmem] at h

/-- A successful lookup exhibits a binding of the dictionary. -/
lemma pair_mem_of_dictLookup {d : EntriesDict} {e : String} {ts : List String}
    (h : dictLookup d e = some ts) : (e, ts) ∈ d := by
  induction d with
  | nil => simp [dictLookup] at h
  | cons kv rest ih =>
      obtain ⟨a, v⟩ := kv
      by_cases hae : a = e
      · subst hae
        simp only [dictLookup, if_pos rfl] at h
        cases h
        exact List.mem_cons_self _ _
      · simp only [dictLookup, if_neg hae] at h
        exact List.mem_cons_of_mem _ (ih h)

/-- Lookup distributes over append: the left dictionary wins. -/
lemma dictLookup_append_of_some {x y : EntriesDict} {e : String} {v : List String}
    (h : dictLookup x e = some v) : dictLookup (x ++ y) e = some v := by
  induction x with
  | nil => simp [dictLookup] at h
  | cons kv rest ih =>
      obtain ⟨a, w⟩ := kv
      by_cases hae : a = e
      · subst hae
        simp only [dictLookup, if_pos rfl] at h ⊢
        exact h
      · simp only [List.cons_append, dictLookup, if_neg hae] at h ⊢
        exact ih h

/-- Lookup falls through to the right dictionary on a miss. -/
lemma dictLookup_append_of_none {x y : EntriesDict} {e : String}
    (h : dictLookup x e = none) : dictLookup (x ++ y) e = dictLookup y e := by
  induction x with
  | nil => simp
  | cons kv rest ih =>
      obtain ⟨a, w⟩ := kv
      by_cases hae : a = e
      · subst hae
        simp [dictLookup] at h
      · simp only [dictLookup, if_neg hae] at h
        simpa [dictLookup, hae] using ih h

/-! Characterizations of the mutation folds in `assign_tag` and `parse_csv`. -/

/-- Key list after any fold of per-key updates. -/
lemma dictKeys_foldl_dictUpdate {α : Type} (key : α → String)
    (f : α → List String → List String) (l : List α) (d : EntriesDict) :
    dictKeys (l.foldl (fun d x => dictUpdate d (key x) (f x)) d) = dictKeys d := by
  induction l generalizing d with
  | nil => rfl
  | cons a l ih => rw [List.foldl_cons, ih, dictKeys_dictUpdate]

/-- Lookup after `assign_tag`'s mutation fold: entries named by the subset have
the tag added, all others are untouched. -/
lemma dictLookup_assign_foldl (tag : String) (S : List String) (d : EntriesDict) (e : String) :
    dictLookup (S.foldl (fun d api => dictUpdate d api (fun ts => setAdd ts tag)) d) e =
      if e ∈ S then (dictLookup d e).map (fun ts => setAdd ts tag) else dictLookup d e := by
  induction S generalizing d with
  | nil => simp
  | cons a S ih =>
      rw [List.foldl_cons, ih, dictLookup_dictUpdate]
      by_cases haS : e ∈ S <;> by_cases hae : e = a <;>
        cases hdl : dictLookup d e <;>
          simp [haS, hae, hdl, List.mem_cons, setAdd_setAdd]

/-- If every named entry already carries the tag, `assign_tag`'s mutation fold
is the identity. -/
lemma assign_foldl_fixed {tag : String} {S : List String} {d : EntriesDict}
    (h : ∀ e ∈ S, ∃ ts, dictLookup d e = some ts ∧ tag ∈ ts) :
    S.foldl (fun d api => dictUpdate d api (fun ts => setAdd ts tag)) d = d := by
  induction S generalizing d with
  | nil => rfl
  | cons a S ih =>
      obtain ⟨ts, hts, htag⟩ := h a (List.mem_cons_self a S)
      have hfix : dictUpdate d a (fun ts => setAdd ts tag) = d := by
        clear ih h
        induction d with
        | nil => rfl
        | cons kv rest ihd =>
            obtain ⟨k, v⟩ := kv
            by_cases hk : k = a
            · subst hk
              simp only [dictLookup, if_pos rfl] at hts
              cases hts
              simp [dictUpdate, setAdd_of_mem htag]
            · simp only [dictLookup, if_neg hk] at hts
              simp [dictUpdate, hk, ihd hts]
      rw [List.foldl_cons, hfix, ih (fun e he => h e (List.mem_cons_of_mem _ he))]

/-- Lookup after `parse_csv`'s mutation fold, as a per-entry fold over the rows. -/
lemma dictLookup_rows_foldl (rows : List (List String)) (d : EntriesDict) (e : String) :
    dictLookup (rows.foldl
        (fun d csv => dictUpdate d (csv.headD "") (fun ts => csv.tail.foldl setAdd ts)) d) e =
      (dictLookup d e).map (fun ts =>
        rows.foldl (fun ts csv => if csv.headD "" = e then csv.tail.foldl setAdd ts else ts) ts) := by
  induction rows generalizing d with
  | nil => cases hdl : dictLookup d e <;> simp [hdl]
  | cons csv rows ih =>
      rw [List.foldl_cons, ih, dictLookup_dictUpdate]
      cases hdl : dictLookup d e with
      | none =>
          by_cases hk : e = csv.headD "" <;> simp [hk]
      | some ts =>
          by_cases hk : e = csv.headD ""
          · rw [if_pos hk]
            simp only [Option.map_some', List.foldl_cons]
            rw [if_pos hk.symm]
          · have hne : ¬ (csv.headD "" = e) := fun h => hk h.symm
            rw [if_neg hk]
            simp only [Option.map_some', List.foldl_cons]
            rw [if_neg hne]

/-- Membership in the per-entry row fold: a tag ends up on `e` exactly when it
was already there or some row keyed `e` lists it. -/
lemma mem_rows_foldl_iff (rows : List (List String)) (ts : List String) (t e : String) :
    t ∈ rows.foldl (fun ts csv => if csv.headD "" = e then csv.tail.foldl setAdd ts else ts) ts ↔
      t ∈ ts ∨ ∃ csv ∈ rows, csv.headD "" = e ∧ t ∈ csv.tail := by
  induction rows generalizing ts with
  | nil => simp
  | cons csv rows ih =>
      rw [List.foldl_cons]
      by_cases hk : csv.headD "" = e
      · rw [if_pos hk, ih, mem_foldl_setAdd]
        constructor
        · rintro ((h | h) | h)
          · exact Or.inl h
          · exact Or.inr ⟨csv, List.mem_cons_self _ _, hk, h⟩
          · obtain ⟨c, hc, hc2⟩ := h
            exact Or.inr ⟨c, List.mem_cons_of_mem _ hc, hc2⟩
        · rintro (h | ⟨c, hc, hck, hct⟩)
          · exact Or.inl (Or.inl h)
          · rcases List.mem_cons.mp hc with rfl | hc'
            · exact Or.inl (Or.inr hct)
            · exact Or.inr ⟨c, hc', hck, hct⟩
      · rw [if_neg hk, ih]
        constructor
        · rintro (h | ⟨c, hc, hck, hct⟩)
          · exact Or.inl h
          · exact Or.inr ⟨c, List.mem_cons_of_mem _ hc, hck, hct⟩
        · rintro (h | ⟨c, hc, hck, hct⟩)
          · exact Or.inl h
          · rcases List.mem_cons.mp hc with rfl | hc'
            · exact absurd hck hk
            · exact Or.inr ⟨c, hc', hck, hct⟩

/-! Lemmas about `dict_from_keys`, `filter_dict_keys` and the checks. -/

/-- Keys of a dict comprehension are the distinct entries. -/
lemma mem_dictKeys_dict_from_keys {tags : List String} {l : List String} {e : String} :
    e ∈ dictKeys (dict_from_keys tags l) ↔ e ∈ l := by
  induction l with
  | nil => simp [dict_from_keys, dictKeys]
  | cons a l ih =>
      by_cases h : l.contains a
      · rw [contains_iff] at h
        simp only [dict_from_keys, contains_iff.mpr h, if_true, ih, List.mem_cons]
        constructor
        · exact Or.inr
        · rintro (rfl | h') <;> [exact h; exact h']
      · simp only [dict_from_keys, h, Bool.false_eq_true, if_false]
        simp [dictKeys, List.mem_cons] at ih ⊢
        rw [ih]

/-- A dict comprehension has no duplicate keys. -/
lemma nodup_dictKeys_dict_from_keys {tags : List String} {l : List String} :
    (dictKeys (dict_from_keys tags l)).Nodup := by
  induction l with
  | nil => simp [dict_from_keys, dictKeys]
  | cons a l ih =>
      by_cases h : a ∈ l
      · simpa [dict_from_keys, h] using ih
      · have hmem : a ∉ dictKeys (dict_from_keys tags l) :=
          fun hm => h (mem_dictKeys_dict_from_keys.mp hm)
        simp only [dict_from_keys, contains_iff, h]
        simp only [decide_False, Bool.false_eq_true, if_false, dictKeys, List.map_cons]
        exact List.Nodup.cons hmem ih

/-- Every entry of the comprehension is bound to the given tag set. -/
lemma dictLookup_dict_from_keys {tags : List String} {l : List String} {e : String}
    (h : e ∈ l) : dictLookup (dict_from_keys tags l) e = some tags := by
  induction l with
  | nil => simp at h
  | cons a l ih =>
      by_cases hc : a ∈ l
      · rcases List.mem_cons.mp h with rfl | h'
        · simpa [dict_from_keys, hc] using ih hc
        · simpa [dict_from_keys, hc] using ih h'
      · rcases List.mem_cons.mp h with rfl | h'
        · simp [dict_from_keys, hc, dictLookup]
        · by_cases hae : a = e
          · subst hae
            simp [dict_from_keys, hc, dictLookup]
          · simp only [dict_from_keys, contains_iff, hc, decide_False, Bool.false_eq_true,
              if_false, dictLookup, if_neg hae]
            exact ih h'

/-- Filtered keys are keys. -/
lemma mem_dictKeys_of_mem_filter {p : String → List String → Bool} {d : EntriesDict}
    {e : String} (h : e ∈ filter_dict_keys p d) : e ∈ dictKeys d := by
  simp only [filter_dict_keys, List.mem_map, List.mem_filter] at h
  obtain ⟨kv, ⟨hkv, _⟩, rfl⟩ := h
  exact List.mem_map.mpr ⟨kv, hkv, rfl⟩

/-- On a duplicate-free dictionary, filtered keys are exactly the keys whose
binding satisfies the predicate. -/
lemma mem_filter_dict_keys_iff {p : String → List String → Bool} {d : EntriesDict}
    {e : String} (hnd : (dictKeys d).Nodup) :
    e ∈ filter_dict_keys p d ↔ ∃ ts, dictLookup d e = some ts ∧ p e ts = true := by
  induction d with
  | nil => simp [filter_dict_keys, dictLookup]
  | cons kv rest ih =>
      obtain ⟨a, v⟩ := kv
      have hnd' : (dictKeys rest).Nodup := (List.nodup_cons.mp hnd).2
      have hanotin : a ∉ dictKeys rest := (List.nodup_cons.mp hnd).1
      by_cases hae : a = e
      · subst hae
        simp only [dictLookup, if_pos rfl]
        constructor
        · intro h
          simp only [filter_dict_keys, List.mem_map, List.mem_filter] at h
          obtain ⟨kv, ⟨hkv, hp⟩, hfst⟩ := h
          rcases List.mem_cons.mp hkv with heq | hmem
          · subst heq
            exact ⟨v, rfl, by simpa using hp⟩
          · exact absurd (List.mem_map.mpr ⟨kv, hmem, hfst⟩) hanotin
        · rintro ⟨ts, hts, hp⟩
          cases hts
          simp only [filter_dict_keys, List.filter_cons]
          rw [if_pos hp]
          exact List.mem_map.mpr ⟨(a, v), List.mem_cons_self _ _, rfl⟩
      · simp only [dictLookup, if_neg hae]
        rw [← ih hnd']
        simp only [filter_dict_keys, List.filter_cons]
        by_cases hp : p a v
        · rw [if_pos hp]
          simp only [List.map_cons, List.mem_cons]
          constructor
          · rintro (rfl | h)
            · exact absurd rfl hae
            · exact h
          · exact Or.inr
        · rw [if_neg hp]

/-- The entries check passes exactly when every key is known. -/
lemma check_entries_set_iff {S : List String} {d : EntriesDict} :
    check_entries_set S d = true ↔ ∀ e ∈ S, e ∈ dictKeys d := by
  simp [check_entries_set]

/-- The tags check passes exactly when every tag is registered. -/
lemma check_tags_set_iff {S : List String} :
    check_tags_set S = true ↔ ∀ t ∈ S, t ∈ TAGS := by
  simp [check_tags_set]

/-! Inversion lemmas for the fallible operations. -/

/-- When its two checks pass, `assign_tag` succeeds and returns the mutation
fold; otherwise it fails. -/
lemma assign_tag_eq_some_iff {tag : String} {S : List String} {d d' : EntriesDict} :
    assign_tag tag S d = some d' ↔
      (∀ e ∈ S, e ∈ dictKeys d) ∧ tag ∈ TAGS ∧
        d' = S.foldl (fun d api => dictUpdate d api (fun ts => setAdd ts tag)) d := by
  unfold assign_tag
  cases h1 : check_entries_set S d with
  | false =>
      refine iff_of_false (by simp) ?_
      rintro ⟨hS, -, -⟩
      rw [check_entries_set_iff.mpr hS] at h1
      cases h1
  | true =>
      cases h2 : check_tags_set [tag] with
      | false =>
          refine iff_of_false (by simp) ?_
          rintro ⟨-, ht, -⟩
          have hc : check_tags_set [tag] = true := check_tags_set_iff.mpr
            (by intro t htm; rw [List.mem_singleton.mp htm]; exact ht)
          rw [hc] at h2
          cases h2
      | true =>
          have ht : tag ∈ TAGS := check_tags_set_iff.mp h2 tag (List.mem_singleton.mpr rfl)
          simp only [Bool.and_self, if_true, Option.some.injEq]
          constructor
          · intro h
            exact ⟨check_entries_set_iff.mp h1, ht, h.symm⟩
          · rintro ⟨-, -, rfl⟩
            rfl

/-- `assign_tag` fails exactly when some entry is unknown or the tag is. -/
lemma assign_tag_eq_none_iff {tag : String} {S : List String} {d : EntriesDict} :
    assign_tag tag S d = none ↔ (∃ e ∈ S, e ∉ dictKeys d) ∨ tag ∉ TAGS := by
  cases ha : assign_tag tag S d with
  | some d' =>
      obtain ⟨hS, ht, -⟩ := assign_tag_eq_some_iff.mp ha
      refine iff_of_false (by simp) ?_
      rintro (⟨e, he, hmem⟩ | htag)
      · exact hmem (hS e he)
      · exact htag ht
  | none =>
      refine iff_of_true rfl ?_
      by_contra hno
      push_neg at hno
      obtain ⟨hS, ht⟩ := hno
      have hsome : assign_tag tag S d =
          some (S.foldl (fun d api => dictUpdate d api (fun ts => setAdd ts tag)) d) :=
        assign_tag_eq_some_iff.mpr ⟨hS, ht, rfl⟩
      rw [ha] at hsome
      cases hsome

/-- Keys are unchanged by a successful `assign_tag`. -/
lemma dictKeys_assign_tag {tag : String} {S : List String} {d d' : EntriesDict}
    (h : assign_tag tag S d = some d') : dictKeys d' = dictKeys d := by
  obtain ⟨-, -, rfl⟩ := assign_tag_eq_some_iff.mp h
  exact dictKeys_foldl_dictUpdate (fun api => api) (fun _ ts => setAdd ts tag) S d

/-- Lookup after a successful `assign_tag`. -/
lemma dictLookup_assign_tag {tag : String} {S : List String} {d d' : EntriesDict}
    (h : assign_tag tag S d = some d') (e : String) :
    dictLookup d' e =
      if e ∈ S then (dictLookup d e).map (fun ts => setAdd ts tag) else dictLookup d e := by
  obtain ⟨-, -, rfl⟩ := assign_tag_eq_some_iff.mp h
  exact dictLookup_assign_foldl tag S d e

/-- When its two checks pass, `parse_csv` succeeds and returns the row fold;
otherwise it fails. -/
lemma parse_csv_eq_some_iff {lines : List String} {d d' : EntriesDict} :
    parse_csv lines d = some d' ↔
      (∀ line ∈ lines, (pySplitComma line).headD "" ∈ dictKeys d) ∧
      (∀ line ∈ lines, ∀ t ∈ (pySplitComma line).tail, t ∈ TAGS) ∧
        d' = (lines.map pySplitComma).foldl
          (fun d csv => dictUpdate d (csv.headD "") (fun ts => csv.tail.foldl setAdd ts)) d := by
  unfold parse_csv
  cases h1 : check_entries_set ((lines.map pySplitComma).map (fun csv => csv.headD "")) d with
  | false =>
      refine iff_of_false (by simp) ?_
      rintro ⟨hk, -, -⟩
      have hc : check_entries_set ((lines.map pySplitComma).map (fun csv => csv.headD "")) d
          = true := by
        refine check_entries_set_iff.mpr ?_
        intro e he
        obtain ⟨csv, hcsv, rfl⟩ := List.mem_map.mp he
        obtain ⟨line, hline, rfl⟩ := List.mem_map.mp hcsv
        exact hk line hline
      rw [hc] at h1
      cases h1
  | true =>
      cases h2 : check_tags_set ((lines.map pySplitComma).map List.tail).flatten with
      | false =>
          refine iff_of_false (by simp) ?_
          rintro ⟨-, htg, -⟩
          have hc : check_tags_set ((lines.map pySplitComma).map List.tail).flatten = true := by
            refine check_tags_set_iff.mpr ?_
            intro t ht
            obtain ⟨l, hl, htl⟩ := List.mem_flatten.mp ht
            obtain ⟨csv, hcsv, rfl⟩ := List.mem_map.mp hl
            obtain ⟨line, hline, rfl⟩ := List.mem_map.mp hcsv
            exact htg line hline t htl
          rw [hc] at h2
          cases h2
      | true =>
          simp only [Bool.and_self, if_true, Option.some.injEq]
          have hk : ∀ line ∈ lines, (pySplitComma line).headD "" ∈ dictKeys d := by
            intro line hl
            exact check_entries_set_iff.mp h1 _
              (List.mem_map.mpr ⟨pySplitComma line, List.mem_map.mpr ⟨line, hl, rfl⟩, rfl⟩)
          have htg : ∀ line ∈ lines, ∀ t ∈ (pySplitComma line).tail, t ∈ TAGS := by
            intro line hl t ht
            refine check_tags_set_iff.mp h2 t (List.mem_flatten.mpr ?_)
            exact ⟨(pySplitComma line).tail,
              List.mem_map.mpr ⟨pySplitComma line, List.mem_map.mpr ⟨line, hl, rfl⟩, rfl⟩, ht⟩
          constructor
          · intro h
            exact ⟨hk, htg, h.symm⟩
          · rintro ⟨-, -, rfl⟩
            rfl

/-- `parse_csv` fails exactly when some row names an unknown entry or an
unknown tag. -/
lemma parse_csv_eq_none_iff {lines : List String} {d : EntriesDict} :
    parse_csv lines d = none ↔
      (∃ line ∈ lines, (pySplitComma line).headD "" ∉ dictKeys d) ∨
      (∃ line ∈ lines, ∃ t ∈ (pySplitComma line).tail, t ∉ TAGS) := by
  cases hp : parse_csv lines d with
  | some d' =>
      obtain ⟨hk, htg, -⟩ := parse_csv_eq_some_iff.mp hp
      refine iff_of_false (by simp) ?_
      rintro (⟨line, hl, hmem⟩ | ⟨line, hl, t, ht, htags⟩)
      · exact hmem (hk line hl)
      · exact htags (htg line hl t ht)
  | none =>
      refine iff_of_true rfl ?_
      by_contra hno
      push_neg at hno
      obtain ⟨hk, htg⟩ := hno
      have hsome : parse_csv lines d = some ((lines.map pySplitComma).foldl
          (fun d csv => dictUpdate d (csv.headD "") (fun ts => csv.tail.foldl setAdd ts)) d) :=
        parse_csv_eq_some_iff.mpr ⟨hk, htg, rfl⟩
      rw [hp] at hsome
      cases hsome

/-- Keys are unchanged by a successful `parse_csv`. -/
lemma dictKeys_parse_csv {lines : List String} {d d' : EntriesDict}
    (h : parse_csv lines d = some d') : dictKeys d' = dictKeys d := by
  obtain ⟨-, -, rfl⟩ := parse_csv_eq_some_iff.mp h
  exact dictKeys_foldl_dictUpdate (fun csv => csv.headD "")
    (fun csv ts => csv.tail.foldl setAdd ts) (lines.map pySplitComma) d

/-- Inverting a successful merge: the guard held and the result is the
concatenation. -/
lemma merge_two_disjoint_dicts_eq_some_iff {x y d : EntriesDict} :
    merge_two_disjoint_dicts x y = some d ↔
      (∀ k ∈ dictKeys x, k ∉ dictKeys y) ∧ d = x ++ y := by
  unfold merge_two_disjoint_dicts
  cases h : (dictKeys x).all (fun k => !((dictKeys y).contains k)) with
  | false =>
      refine iff_of_false (by simp) ?_
      rintro ⟨hd, -⟩
      have hc : (dictKeys x).all (fun k => !((dictKeys y).contains k)) = true := by
        refine List.all_eq_true.mpr ?_
        intro k hk
        simpa using hd k hk
      rw [hc] at h
      cases h
  | true =>
      simp only [if_true, Option.some.injEq]
      have hd : ∀ k ∈ dictKeys x, k ∉ dictKeys y := by
        intro k hk
        have := List.all_eq_true.mp h k hk
        simpa using this
      constructor
      · intro he
        exact ⟨hd, he.symm⟩
      · rintro ⟨-, rfl⟩
        rfl

/-- A merge fails exactly when the key sets intersect. -/
lemma merge_two_disjoint_dicts_eq_none_iff {x y : EntriesDict} :
    merge_two_disjoint_dicts x y = none ↔ ∃ k, k ∈ dictKeys x ∧ k ∈ dictKeys y := by
  cases hm : merge_two_disjoint_dicts x y with
  | some d =>
      obtain ⟨hd, -⟩ := merge_two_disjoint_dicts_eq_some_iff.mp hm
      refine iff_of_false (by simp) ?_
      rintro ⟨k, hkx, hky⟩
      exact hd k hkx hky
  | none =>
      refine iff_of_true rfl ?_
      by_contra hno
      push_neg at hno
      have hsome : merge_two_disjoint_dicts x y = some (x ++ y) :=
        merge_two_disjoint_dicts_eq_some_iff.mpr ⟨hno, rfl⟩
      rw [hm] at hsome
      cases hsome

/-! Preservation of the key list across the pipeline. -/

/-- A fold of fallible steps that each preserve the key list preserves the key
list. -/
lemma foldlM_dictKeys {α : Type} {step : EntriesDict → α → Option EntriesDict}
    (hstep : ∀ d a d', step d a = some d' → dictKeys d' = dictKeys d) :
    ∀ (l : List α) (d d' : EntriesDict), List.foldlM step d l = some d' → dictKeys d' = dictKeys d := by
  intro l
  induction l with
  | nil =>
      intro d d' h
      simp only [List.foldlM_nil, Option.pure_def, Option.some.injEq] at h
      rw [h]
  | cons a l ih =>
      intro d d' h
      rw [List.foldlM_cons] at h
      obtain ⟨d1, hd1, hrest⟩ := Option.bind_eq_some.mp h
      rw [ih d1 d' hrest, hstep d a d1 hd1]

/-- A successful universe construction has duplicate-free keys, keyed by the
union of the two entry lists, with public entries bound to `{whitelist}` and
private entries to the empty set. -/
lemma build_universe_spec {pub priv : List String} {d : EntriesDict}
    (h : build_universe pub priv = some d) :
    (dictKeys d).Nodup ∧
    (∀ e, e ∈ dictKeys d ↔ e ∈ read_lines pub ∨ e ∈ read_lines priv) ∧
    (∀ e, e ∈ read_lines pub → dictLookup d e = some [TAG_WHITELIST]) ∧
    (∀ e, e ∈ read_lines priv → dictLookup d e = some []) := by
  obtain ⟨hdisj, rfl⟩ := merge_two_disjoint_dicts_eq_some_iff.mp h
  have hkeys : dictKeys (dict_from_keys [TAG_WHITELIST] (read_lines pub) ++
      dict_from_keys [] (read_lines priv)) =
      dictKeys (dict_from_keys [TAG_WHITELIST] (read_lines pub)) ++
      dictKeys (dict_from_keys [] (read_lines priv)) := by
    simp [dictKeys]
  refine ⟨?_, ?_, ?_, ?_⟩
  · rw [hkeys]
    exact List.Nodup.append nodup_dictKeys_dict_from_keys nodup_dictKeys_dict_from_keys
      (fun a ha hb => hdisj a ha hb)
  · intro e
    rw [hkeys, List.mem_append, mem_dictKeys_dict_from_keys, mem_dictKeys_dict_from_keys]
  · intro e he
    exact dictLookup_append_of_some (dictLookup_dict_from_keys he)
  · intro e he
    have hnotpub : e ∉ dictKeys (dict_from_keys [TAG_WHITELIST] (read_lines pub)) := by
      intro hmem
      exact hdisj e hmem (mem_dictKeys_dict_from_keys.mpr he)
    rw [dictLookup_append_of_none (dictLookup_eq_none_iff.mpr hnotpub)]
    exact dictLookup_dict_from_keys he

/-- Universe construction fails exactly when the two baseline entry sets
intersect. -/
lemma build_universe_eq_none_iff {pub priv : List String} :
    build_universe pub priv = none ↔
      ∃ e, e ∈ read_lines pub ∧ e ∈ read_lines priv := by
  unfold build_universe
  rw [merge_two_disjoint_dicts_eq_none_iff]
  constructor
  · rintro ⟨k, hkx, hky⟩
    exact ⟨k, mem_dictKeys_dict_from_keys.mp hkx, mem_dictKeys_dict_from_keys.mp hky⟩
  · rintro ⟨e, hex, hey⟩
    exact ⟨e, mem_dictKeys_dict_from_keys.mpr hex, mem_dictKeys_dict_from_keys.mpr hey⟩

/-- All the passes before the catch-all preserve the key list of the freshly
built universe (hence its duplicate-freeness). -/
lemma main_before_catch_all_keys {pub priv : List String} {csvs : List (List String)}
    {tag_files conflict_files : String → List (List String)} {d : EntriesDict}
    (h : main_before_catch_all pub priv csvs tag_files conflict_files = some d) :
    ∃ d0, build_universe pub priv = some d0 ∧ dictKeys d = dictKeys d0 := by
  unfold main_before_catch_all at h
  obtain ⟨d0, hd0, h⟩ := Option.bind_eq_some.mp h
  obtain ⟨d1, hd1, h⟩ := Option.bind_eq_some.mp h
  obtain ⟨d2, hd2, h⟩ := Option.bind_eq_some.mp h
  obtain ⟨d3, hd3, h⟩ := Option.bind_eq_some.mp h
  obtain ⟨d4, hd4, h⟩ := Option.bind_eq_some.mp h
  simp only [Option.pure_def, Option.some.injEq] at h
  subst h
  refine ⟨d0, hd0, ?_⟩
  have k1 : dictKeys d1 = dictKeys d0 := dictKeys_assign_tag hd1
  have k2 : dictKeys d2 = dictKeys d1 :=
    foldlM_dictKeys (fun d f d' hf => dictKeys_parse_csv hf) csvs d1 d2 hd2
  have k3 : dictKeys d3 = dictKeys d2 := by
    refine foldlM_dictKeys ?_ TAGS d2 d3 hd3
    intro d tag d' htag
    exact foldlM_dictKeys (fun d f d' hf => dictKeys_assign_tag hf) (tag_files tag) d d' htag
  have k4 : dictKeys d4 = dictKeys d3 := by
    refine foldlM_dictKeys ?_ TAGS d3 d4 hd4
    intro d tag d' htag
    exact foldlM_dictKeys (fun d f d' hf => dictKeys_assign_tag hf) (conflict_files tag) d d' htag
  rw [k4, k3, k2, k1]

/-- The catch-all always succeeds: its key subset comes from the dictionary
itself and `blacklist` is a known tag. -/
lemma catch_all_step_eq_some (d : EntriesDict) :
    catch_all_step d = some ((filter_dict_keys IS_UNASSIGNED d).foldl
      (fun d api => dictUpdate d api (fun ts => setAdd ts TAG_BLACKLIST)) d) := by
  refine assign_tag_eq_some_iff.mpr ⟨?_, ?_, rfl⟩
  · intro e he
    exact mem_dictKeys_of_mem_filter he
  · simp [TAGS]

/-- Lookup after the catch-all on a duplicate-free dictionary: empty tag sets
become `{blacklist}`, all others are untouched. -/
lemma catch_all_step_lookup {d d' : EntriesDict} (hnd : (dictKeys d).Nodup)
    (h : catch_all_step d = some d') (e : String) :
    dictLookup d' e =
      match dictLookup d e with
      | none => none
      | some [] => some [TAG_BLACKLIST]
      | some ts => some ts := by
  have hchar := dictLookup_assign_tag h e
  by_cases hmem : e ∈ filter_dict_keys IS_UNASSIGNED d
  · obtain ⟨ts, hts, hp⟩ := (mem_filter_dict_keys_iff hnd).mp hmem
    have hts0 : ts = [] := by simpa [IS_UNASSIGNED] using hp
    subst hts0
    rw [hchar, if_pos hmem, hts]
    rfl
  · rw [hchar, if_neg hmem]
    cases hts : dictLookup d e with
    | none => rfl
    | some ts =>
        cases ts with
        | nil =>
            exfalso
            exact hmem ((mem_filter_dict_keys_iff hnd).mpr ⟨[], hts, by simp [IS_UNASSIGNED]⟩)
        | cons t ts => rfl

/-! The code-point order on strings is a total preorder: what `sorted` needs. -/

/-- Strict lexicographic order is asymmetric. -/
lemma charListLt_asymm : ∀ {a b : List Char},
    charListLt a b = true → charListLt b a = false := by
  intro a
  induction a with
  | nil =>
      intro b h
      cases b with
      | nil => simp [charListLt] at h
      | cons c cs => simp [charListLt]
  | cons x xs ih =>
      intro b h
      cases b with
      | nil => simp [charListLt] at h
      | cons y ys =>
          simp only [charListLt] at h ⊢
          by_cases hxy : x < y
          · rw [if_neg (lt_asymm hxy), if_pos hxy]
          · rw [if_neg hxy] at h
            by_cases hyx : y < x
            · rw [if_pos hyx] at h
              cases h
            · rw [if_neg hyx] at h
              rw [if_neg hyx, if_neg hxy]
              exact ih h

/-- Strict lexicographic order is transitive. -/
lemma charListLt_trans : ∀ {a b c : List Char},
    charListLt a b = true → charListLt b c = true → charListLt a c = true := by
  intro a
  induction a with
  | nil =>
      intro b c h1 h2
      cases b with
      | nil => simp [charListLt] at h1
      | cons y ys =>
          cases c with
          | nil => simp [charListLt] at h2
          | cons z zs => simp [charListLt]
  | cons x xs ih =>
      intro b c h1 h2
      cases b with
      | nil => simp [charListLt] at h1
      | cons y ys =>
          cases c with
          | nil => simp [charListLt] at h2
          | cons z zs =>
              simp only [charListLt] at h1 h2 ⊢
              by_cases hxy : x < y
              · by_cases hyz : y < z
                · rw [if_pos (lt_trans hxy hyz)]
                · rw [if_neg hyz] at h2
                  by_cases hzy : z < y
                  · rw [if_pos hzy] at h2
                    cases h2
                  · rw [if_pos (lt_of_lt_of_le hxy (not_lt.mp hzy))]
              · rw [if_neg hxy] at h1
                by_cases hyx : y < x
                · rw [if_pos hyx] at h1
                  cases h1
                · rw [if_neg hyx] at h1
                  have hxy' : x = y := le_antisymm (not_lt.mp hyx) (not_lt.mp hxy)
                  subst hxy'
                  by_cases hxz : x < z
                  · rw [if_pos hxz]
                  · rw [if_neg hxz] at h2 ⊢
                    by_cases hzx : z < x
                    · rw [if_pos hzx] at h2
                      cases h2
                    · rw [if_neg hzx] at h2 ⊢
                      exact ih h1 h2

/-- Two lists neither of which is below the other are equal. -/
lemma charListLt_antisymm : ∀ {a b : List Char},
    charListLt a b = false → charListLt b a = false → a = b := by
  intro a
  induction a with
  | nil =>
      intro b h1 _
      cases b with
      | nil => rfl
      | cons c cs => simp [charListLt] at h1
  | cons x xs ih =>
      intro b h1 h2
      cases b with
      | nil => simp [charListLt] at h2
      | cons y ys =>
          simp only [charListLt] at h1 h2
          by_cases hxy : x < y
          · rw [if_pos hxy] at h1
            cases h1
          · by_cases hyx : y < x
            · rw [if_pos hyx] at h2
              cases h2
            · rw [if_neg hxy, if_neg hyx] at h1
              rw [if_neg hyx, if_neg hxy] at h2
              have hx : x = y := le_antisymm (not_lt.mp hyx) (not_lt.mp hxy)
              rw [hx, ih h1 h2]

/-- Strings with equal character data are equal. -/
lemma stringDataInj {a b : String} (h : a.data = b.data) : a = b :=
  congrArg String.mk h

instance pyLe.isTotal : IsTotal String pyLe := by
  constructor
  intro a b
  unfold pyLe pyStrLt
  cases h : charListLt b.data a.data with
  | false => exact Or.inl rfl
  | true => exact Or.inr (charListLt_asymm h)

instance pyLe.isTrans : IsTrans String pyLe := by
  constructor
  intro a b c hab hbc
  unfold pyLe pyStrLt at hab hbc ⊢
  by_contra hca
  rw [Bool.not_eq_false] at hca
  cases hAB : charListLt a.data b.data with
  | true =>
      have hcb := charListLt_trans hca hAB
      rw [hbc] at hcb
      cases hcb
  | false =>
      have heq : a.data = b.data := charListLt_antisymm hAB hab
      rw [heq] at hca
      rw [hbc] at hca
      cases hca

/-! Lemmas about `strip` for the `read_lines` claims. -/

/-- A Bool test that a string has no leading or trailing Python whitespace. -/
def hasNoSurroundingSpace (s : String) : Bool :=
  (match s.data.head? with
   | none => true
   | some c => !isPySpace c) &&
  (match s.data.getLast? with
   | none => true
   | some c => !isPySpace c)

/-- The head surviving a `dropWhile` fails the predicate. -/
lemma head_dropWhile_not {α : Type} (p : α → Bool) :
    ∀ (l : List α) (c : α), (l.dropWhile p).head? = some c → p c = false := by
  intro l
  induction l with
  | nil => simp
  | cons a rest ih =>
      intro c h
      by_cases hp : p a
      · rw [List.dropWhile_cons_of_pos hp] at h
        exact ih c h
      · rw [List.dropWhile_cons_of_neg hp] at h
        simp only [List.head?_cons, Option.some.injEq] at h
        rw [← h]
        exact Bool.not_eq_true _ ▸ (by simpa using hp)

/-- `dropWhile` only removes a prefix, so it preserves the last element. -/
lemma getLast_dropWhile {α : Type} (p : α → Bool) :
    ∀ (l : List α) (c : α), (l.dropWhile p).getLast? = some c → l.getLast? = some c := by
  intro l
  induction l with
  | nil => simp
  | cons a rest ih =>
      intro c h
      by_cases hp : p a
      · rw [List.dropWhile_cons_of_pos hp] at h
        have hrest : rest ≠ [] := by
          intro hnil
          subst hnil
          simp at h
        cases rest with
        | nil => exact absurd rfl hrest
        | cons b tl =>
            rw [List.getLast?_cons_cons]
            exact ih c h
      · rw [List.dropWhile_cons_of_neg hp] at h
        exact h

/-- If the head is not removable, `dropWhile` is the identity. -/
lemma dropWhile_eq_self_of_head {α : Type} (p : α → Bool) (l : List α)
    (h : ∀ c, l.head? = some c → p c = false) : l.dropWhile p = l := by
  cases l with
  | nil => rfl
  | cons a rest =>
      have := h a (by simp)
      rw [List.dropWhile_cons_of_neg (by simp [this])]

/-- The result of `strip()` has no surrounding whitespace. -/
lemma pyStrip_hasNoSurroundingSpace (s : String) :
    hasNoSurroundingSpace (pyStrip s) = true := by
  unfold pyStrip hasNoSurroundingSpace
  simp only [Bool.and_eq_true]
  constructor
  · cases hh : (((s.data.dropWhile isPySpace).reverse.dropWhile isPySpace).reverse).head? with
    | none => rfl
    | some c =>
        rw [List.head?_reverse] at hh
        have h1 := getLast_dropWhile isPySpace (s.data.dropWhile isPySpace).reverse c hh
        rw [List.getLast?_reverse] at h1
        have := head_dropWhile_not isPySpace s.data c h1
        simp [this]
  · cases hh : (((s.data.dropWhile isPySpace).reverse.dropWhile isPySpace).reverse).getLast? with
    | none => rfl
    | some c =>
        rw [List.getLast?_reverse] at hh
        have := head_dropWhile_not isPySpace (s.data.dropWhile isPySpace).reverse c hh
        simp [this]

/-- `strip()` is the identity on a string with no surrounding whitespace. -/
lemma pyStrip_eq_self {s : String} (h : hasNoSurroundingSpace s = true) : pyStrip s = s := by
  unfold hasNoSurroundingSpace at h
  simp only [Bool.and_eq_true] at h
  obtain ⟨h1, h2⟩ := h
  unfold pyStrip
  have e1 : s.data.dropWhile isPySpace = s.data := by
    refine dropWhile_eq_self_of_head isPySpace s.data ?_
    intro c hc
    rw [hc] at h1
    simpa using h1
  rw [e1]
  have e2 : s.data.reverse.dropWhile isPySpace = s.data.reverse := by
    refine dropWhile_eq_self_of_head isPySpace s.data.reverse ?_
    intro c hc
    rw [List.head?_reverse] at hc
    rw [hc] at h2
    simpa using h2
  rw [e2, List.reverse_reverse]

/-! Remaining shared helpers. -/

/-- Membership characterization of `read_lines`. -/
lemma mem_read_lines_iff {lines : List String} {s : String} :
    s ∈ read_lines lines ↔
      ∃ l, l ∈ lines ∧ pyStartsWith l "#" = false ∧ s = pyStrip l := by
  simp only [read_lines, List.mem_map, List.mem_filter]
  constructor
  · rintro ⟨l, ⟨hl, hns⟩, rfl⟩
    exact ⟨l, hl, by simpa using hns, rfl⟩
  · rintro ⟨l, hl, hns, rfl⟩
    exact ⟨l, ⟨hl, by simp [hns]⟩, rfl⟩

/-- A binding satisfying the predicate puts its key in the filtered key list
(no duplicate-freeness needed in this direction). -/
lemma mem_filter_dict_keys_of_pair {p : String → List String → Bool} {d : EntriesDict}
    {e : String} {ts : List String} (hm : (e, ts) ∈ d) (hp : p e ts = true) :
    e ∈ filter_dict_keys p d := by
  simp only [filter_dict_keys, List.mem_map, List.mem_filter]
  exact ⟨(e, ts), ⟨hm, hp⟩, rfl⟩

/-- Every binding of the dictionary contributes its line to the CSV output. -/
lemma csv_line_mem_generate_csv {d : EntriesDict} {kv : String × List String}
    (h : kv ∈ d) : csv_line kv.1 kv.2 ∈ generate_csv d := by
  unfold generate_csv
  rw [(List.perm_insertionSort pyLe (d.map (fun kv => csv_line kv.1 kv.2))).mem_iff]
  exact List.mem_map.mpr ⟨kv, h, rfl⟩

/-- Membership in the lenient subset on a duplicate-free dictionary: exactly
the requested entries whose tag set is currently empty. -/
lemma mem_get_valid_subset_iff {S : List String} {U : EntriesDict} {e : String}
    (hnd : (dictKeys U).Nodup) :
    e ∈ get_valid_subset_of_unassigned_keys S U ↔
      e ∈ S ∧ dictLookup U e = some [] := by
  unfold get_valid_subset_of_unassigned_keys
  simp only [List.mem_filter]
  constructor
  · rintro ⟨heS, hc⟩
    obtain ⟨ts, hts, hp⟩ := (mem_filter_dict_keys_iff hnd).mp (contains_iff.mp hc)
    have hts0 : ts = [] := by simpa [IS_UNASSIGNED] using hp
    subst hts0
    exact ⟨heS, hts⟩
  · rintro ⟨heS, hts⟩
    refine ⟨heS, contains_iff.mpr ?_⟩
    exact (mem_filter_dict_keys_iff hnd).mpr ⟨[], hts, by simp [IS_UNASSIGNED]⟩

/-! The claims. -/

/-- C5.  Strict assignment with an entry outside the universe's key set or an
unknown tag fails; the checks run before the mutation loop, so a failing call
produces no mutated dictionary at all (`none` — the `AssertionError` aborts
before any `set.add` executes, leaving the universe byte-for-byte unchanged). -/
theorem assign_tag_failure_spec (T : String) (S : List String) (U : EntriesDict)
    (h : (∃ e ∈ S, e ∉ dictKeys U) ∨ T ∉ TAGS) :
    assign_tag T S U = none :=
  assign_tag_eq_none_iff.mpr h

theorem assign_tag_failure_spec_witness :
    assign_tag TAG_WHITELIST ["x"] [] = none :=
  assign_tag_failure_spec TAG_WHITELIST ["x"] []
    (Or.inl ⟨"x", by decide, by decide⟩)

/-- C6.  Universe construction fails exactly when the public and private
baseline entry sets intersect: overlap is fatal and no universe is returned;
construction succeeds only on disjoint sets. -/
theorem build_universe_overlap_spec (pub priv : List String) :
    build_universe pub priv = none ↔
      ∃ e, e ∈ read_lines pub ∧ e ∈ read_lines priv :=
  build_universe_eq_none_iff

theorem build_universe_overlap_spec_witness :
    build_universe ["a"] ["a"] = none :=
  (build_universe_overlap_spec ["a"] ["a"]).mpr ⟨"a", by decide, by decide⟩

/-- C7.  After a successful universe construction, the key set is exactly the
union of the two baseline entry sets, every public entry is bound to exactly
`{whitelist}`, and every private entry to the empty tag set. -/
theorem build_universe_initial_tags_spec (pub priv : List String) (d : EntriesDict)
    (h : build_universe pub priv = some d) :
    (∀ e, e ∈ dictKeys d ↔ e ∈ read_lines pub ∨ e ∈ read_lines priv) ∧
    (∀ e ∈ read_lines pub, dictLookup d e = some [TAG_WHITELIST]) ∧
    (∀ e ∈ read_lines priv, dictLookup d e = some []) := by
  obtain ⟨-, h1, h2, h3⟩ := build_universe_spec h
  exact ⟨h1, h2, h3⟩

theorem build_universe_initial_tags_spec_witness :
    dictLookup [("A", [TAG_WHITELIST]), ("B", [])] "A" = some [TAG_WHITELIST] ∧
    dictLookup [("A", [TAG_WHITELIST]), ("B", [])] "B" = some [] :=
  ⟨(build_universe_initial_tags_spec ["A"] ["B"] _ (by decide)).2.1 "A" (by decide),
   (build_universe_initial_tags_spec ["A"] ["B"] _ (by decide)).2.2 "B" (by decide)⟩

/-- C8.  For a known tag and a subset of the key set, strict assignment is
idempotent: a second identical call succeeds and returns the same state, and
an entry that already holds the tag keeps its tag set unchanged. -/
theorem assign_tag_idempotent_spec (T : String) (S : List String) (U : EntriesDict)
    (hT : T ∈ TAGS) (hS : ∀ e ∈ S, e ∈ dictKeys U) :
    ∃ U', assign_tag T S U = some U' ∧ assign_tag T S U' = some U' ∧
      (∀ e ts, dictLookup U e = some ts → T ∈ ts → dictLookup U' e = some ts) := by
  have h1 : assign_tag T S U =
      some (S.foldl (fun d api => dictUpdate d api (fun ts => setAdd ts T)) U) :=
    assign_tag_eq_some_iff.mpr ⟨hS, hT, rfl⟩
  obtain ⟨U', h1⟩ : ∃ U', assign_tag T S U = some U' := ⟨_, h1⟩
  have hkeys : dictKeys U' = dictKeys U := dictKeys_assign_tag h1
  have hlook := dictLookup_assign_tag h1
  have h2 : assign_tag T S U' = some U' := by
    refine assign_tag_eq_some_iff.mpr ⟨?_, hT, ?_⟩
    · intro e he
      rw [hkeys]
      exact hS e he
    · refine (assign_foldl_fixed ?_).symm
      intro e he
      obtain ⟨ts, hts⟩ := mem_dictKeys_iff_lookup.mp (hS e he)
      refine ⟨setAdd ts T, ?_, mem_setAdd_self⟩
      rw [hlook e, if_pos he, hts]
      rfl
  refine ⟨U', h1, h2, ?_⟩
  intro e ts hts hmem
  rw [hlook e]
  by_cases he : e ∈ S
  · rw [if_pos he, hts]
    simp [setAdd_of_mem hmem]
  · rw [if_neg he, hts]

theorem assign_tag_idempotent_spec_witness :
    ∃ U', assign_tag TAG_GREYLIST ["B"] [("B", [])] = some U' ∧
      assign_tag TAG_GREYLIST ["B"] U' = some U' ∧
      (∀ e ts, dictLookup [("B", [])] e = some ts → TAG_GREYLIST ∈ ts →
        dictLookup U' e = some ts) :=
  assign_tag_idempotent_spec TAG_GREYLIST ["B"] [("B", [])] (by decide) (by decide)

/-- C2.  Lenient assignment (strict assignment of the sanitized subset) always
succeeds for a known tag: it adds the tag exactly to the requested entries
that are keys with a currently empty tag set; requested entries that are
unknown, or already tagged by anything (including the tag itself), are
silently dropped with their bindings untouched; and the key set is
unchanged. -/
theorem lenient_assignment_spec (T : String) (S : List String) (U : EntriesDict)
    (hT : T ∈ TAGS) (hnd : (dictKeys U).Nodup) :
    ∃ U', assign_tag T (get_valid_subset_of_unassigned_keys S U) U = some U' ∧
      dictKeys U' = dictKeys U ∧
      (∀ e, e ∈ S → dictLookup U e = some [] → dictLookup U' e = some [T]) ∧
      (∀ e ts, dictLookup U e = some ts → (e ∉ S ∨ ts ≠ []) → dictLookup U' e = some ts) ∧
      (∀ e, dictLookup U e = none → dictLookup U' e = none) := by
  have hsub : ∀ e ∈ get_valid_subset_of_unassigned_keys S U, e ∈ dictKeys U := by
    intro e he
    obtain ⟨-, hts⟩ := (mem_get_valid_subset_iff hnd).mp he
    exact mem_dictKeys_iff_lookup.mpr ⟨[], hts⟩
  obtain ⟨U', h1⟩ : ∃ U', assign_tag T (get_valid_subset_of_unassigned_keys S U) U = some U' :=
    ⟨_, assign_tag_eq_some_iff.mpr ⟨hsub, hT, rfl⟩⟩
  have hlook := dictLookup_assign_tag h1
  refine ⟨U', h1, dictKeys_assign_tag h1, ?_, ?_, ?_⟩
  · intro e heS hts
    rw [hlook e, if_pos ((mem_get_valid_subset_iff hnd).mpr ⟨heS, hts⟩), hts]
    rfl
  · intro e ts hts hcond
    have hni : e ∉ get_valid_subset_of_unassigned_keys S U := by
      intro hin
      obtain ⟨heS, hts'⟩ := (mem_get_valid_subset_iff hnd).mp hin
      rcases hcond with h | h
      · exact h heS
      · rw [hts] at hts'
        injection hts' with hts''
        exact h hts''
    rw [hlook e, if_neg hni, hts]
  · intro e hnone
    have hni : e ∉ get_valid_subset_of_unassigned_keys S U := by
      intro hin
      have h2 := ((mem_get_valid_subset_iff hnd).mp hin).2
      rw [hnone] at h2
      cases h2
    rw [hlook e, if_neg hni, hnone]

theorem lenient_assignment_spec_witness :
    ∃ U', assign_tag TAG_BLACKLIST
        (get_valid_subset_of_unassigned_keys ["e1", "e2"] [("e1", [])]) [("e1", [])] = some U' ∧
      dictKeys U' = dictKeys [("e1", [])] ∧
      (∀ e, e ∈ ["e1", "e2"] → dictLookup [("e1", [])] e = some [] →
        dictLookup U' e = some [TAG_BLACKLIST]) ∧
      (∀ e ts, dictLookup [("e1", [])] e = some ts → (e ∉ ["e1", "e2"] ∨ ts ≠ []) →
        dictLookup U' e = some ts) ∧
      (∀ e, dictLookup [("e1", [])] e = none → dictLookup U' e = none) :=
  lenient_assignment_spec TAG_BLACKLIST ["e1", "e2"] [("e1", [])] (by decide) (by decide)

/-- C4.  `parse_csv` is all-or-nothing: it fails exactly when some row names an
unknown entry or an unknown tag (both checks run before any mutation, so a
failing batch produces no mutated dictionary); on success the key set is
unchanged and each entry's final tag set is its old one unioned with the tags
of all rows keyed by it. -/
theorem parse_csv_all_or_nothing_spec (lines : List String) (U : EntriesDict) :
    (parse_csv lines U = none ↔
      (∃ line ∈ lines, (pySplitComma line).headD "" ∉ dictKeys U) ∨
      (∃ line ∈ lines, ∃ t ∈ (pySplitComma line).tail, t ∉ TAGS)) ∧
    (∀ U', parse_csv lines U = some U' →
      dictKeys U' = dictKeys U ∧
      (∀ e ts', dictLookup U' e = some ts' → ∃ ts, dictLookup U e = some ts ∧
        (∀ t, t ∈ ts' ↔ t ∈ ts ∨ ∃ line ∈ lines,
          (pySplitComma line).headD "" = e ∧ t ∈ (pySplitComma line).tail)) ∧
      (∀ e, dictLookup U e = none → dictLookup U' e = none)) := by
  refine ⟨parse_csv_eq_none_iff, ?_⟩
  intro U' hp
  obtain ⟨-, -, hfold⟩ := parse_csv_eq_some_iff.mp hp
  refine ⟨dictKeys_parse_csv hp, ?_, ?_⟩
  · intro e ts' hts'
    rw [hfold, dictLookup_rows_foldl] at hts'
    cases hts : dictLookup U e with
    | none =>
        rw [hts] at hts'
        cases hts'
    | some ts =>
        rw [hts] at hts'
        injection hts' with hts''
        refine ⟨ts, rfl, ?_⟩
        intro t
        rw [← hts'', mem_rows_foldl_iff]
        constructor
        · rintro (h | ⟨csv, hcsv, hk, htl⟩)
          · exact Or.inl h
          · obtain ⟨line, hline, rfl⟩ := List.mem_map.mp hcsv
            exact Or.inr ⟨line, hline, hk, htl⟩
        · rintro (h | ⟨line, hline, hk, htl⟩)
          · exact Or.inl h
          · exact Or.inr ⟨pySplitComma line, List.mem_map.mpr ⟨line, hline, rfl⟩, hk, htl⟩
  · intro e hnone
    rw [hfold, dictLookup_rows_foldl, hnone]
    rfl

theorem parse_csv_all_or_nothing_spec_witness :
    parse_csv ["A,bogus"] [("A", [])] = none :=
  (parse_csv_all_or_nothing_spec ["A,bogus"] [("A", [])]).1.mpr
    (Or.inr ⟨"A,bogus", by decide, "bogus", by decide, by decide⟩)

/-- C3 (counterexample).  The serializer sorts the complete output lines, not
the entry identifiers: for the universe binding `"a"` and `"a\tb"` (both to
`{whitelist}`, a state the pipeline can produce), the output consists of those
two entries' lines, but the line of `"a\tb"` comes first even though
`"a" < "a\tb"` in the identifier order — the tab (code point 9) sorts below
the comma (code point 44) that follows `"a"` in its line.  So the line
sequence is not sorted by entry identifier. -/
theorem generate_csv_identifier_order_cex :
    generate_csv [("a", [TAG_WHITELIST]), ("a\tb", [TAG_WHITELIST])] =
      ["a\tb,whitelist" ++ "\n", "a,whitelist" ++ "\n"] ∧
    csv_line "a" [TAG_WHITELIST] = "a,whitelist" ++ "\n" ∧
    csv_line "a\tb" [TAG_WHITELIST] = "a\tb,whitelist" ++ "\n" ∧
    pyStrLt "a" "a\tb" = true := by decide

/-- C3 (amended).  The serializer emits exactly one line per entry — the
identifier followed by its tags sorted lexicographically, an empty tag set
yielding just the identifier with no error — and the output lines are sorted
lexicographically as whole strings (which coincides with identifier order
whenever no identifier contains a character below the comma). -/
theorem generate_csv_spec (U : EntriesDict) :
    (generate_csv U).Perm (U.map (fun kv => csv_line kv.1 kv.2)) ∧
    List.Sorted pyLe (generate_csv U) ∧
    (∀ kv ∈ U, List.Sorted pyLe (List.insertionSort pyLe kv.2) ∧
      (List.insertionSort pyLe kv.2).Perm kv.2 ∧
      csv_line kv.1 kv.2 = joinComma (kv.1 :: List.insertionSort pyLe kv.2) ++ "\n") ∧
    (∀ api, csv_line api [] = api ++ "\n") := by
  refine ⟨List.perm_insertionSort _ _, List.sorted_insertionSort _ _, ?_, ?_⟩
  · intro kv _
    exact ⟨List.sorted_insertionSort _ _, List.perm_insertionSort _ _, rfl⟩
  · intro api
    rfl

theorem generate_csv_spec_witness :
    List.Sorted pyLe (generate_csv [("B", [TAG_GREYLIST, TAG_WHITELIST]), ("A", [])]) ∧
    csv_line "A" [] = "A" ++ "\n" :=
  ⟨(generate_csv_spec [("B", [TAG_GREYLIST, TAG_WHITELIST]), ("A", [])]).2.1,
   (generate_csv_spec [("B", [TAG_GREYLIST, TAG_WHITELIST]), ("A", [])]).2.2.2 "A"⟩

/-- C9 (counterexample).  A retained line is not taken verbatim: `read_lines`
strips surrounding whitespace, so the file line `" a"` yields the entry
`"a"`, not the verbatim line content `" a"`. -/
theorem read_lines_verbatim_cex :
    read_lines [" a"] = ["a"] ∧ read_lines [" a"] ≠ [" a"] := by decide

/-- C9 (amended).  Reading a baseline file ignores exactly the lines that
start with `'#'` (tested on the raw line), and each retained line contributes
its content stripped of leading and trailing whitespace — verbatim exactly
when the line has no surrounding whitespace. -/
theorem read_lines_spec (lines : List String) :
    (∀ s, s ∈ read_lines lines ↔
      ∃ l, l ∈ lines ∧ pyStartsWith l "#" = false ∧ s = pyStrip l) ∧
    (∀ s ∈ read_lines lines, hasNoSurroundingSpace s = true) ∧
    (∀ l ∈ lines, pyStartsWith l "#" = false → hasNoSurroundingSpace l = true →
      pyStrip l = l ∧ l ∈ read_lines lines) := by
  refine ⟨fun s => mem_read_lines_iff, ?_, ?_⟩
  · intro s hs
    obtain ⟨l, -, -, rfl⟩ := mem_read_lines_iff.mp hs
    exact pyStrip_hasNoSurroundingSpace l
  · intro l hl hns hclean
    have he : pyStrip l = l := pyStrip_eq_self hclean
    exact ⟨he, mem_read_lines_iff.mpr ⟨l, hl, hns, he.symm⟩⟩

theorem read_lines_spec_witness :
    pyStrip "x" = "x" ∧ "x" ∈ read_lines ["# c", "x"] :=
  (read_lines_spec ["# c", "x"]).2.2 "x" (by decide) (by decide) (by decide)

/-- C10.  Blank (empty or whitespace-only) lines are not discarded: such a
line yields the empty-string entry, which becomes a key of the universe like
any other — bound to `{whitelist}` when it came from the public file, to the
empty set when it came from the private file; an empty-string entry still
untagged at the catch-all gets `blacklist` there; and any binding of the
empty-string entry is serialized as a normal output line. -/
theorem blank_line_entry_spec (pub priv : List String) (d : EntriesDict)
    (hb : build_universe pub priv = some d) :
    (∀ l ∈ priv, pyStartsWith l "#" = false → pyStrip l = "" →
      "" ∈ dictKeys d ∧ dictLookup d "" = some []) ∧
    (∀ l ∈ pub, pyStartsWith l "#" = false → pyStrip l = "" →
      "" ∈ dictKeys d ∧ dictLookup d "" = some [TAG_WHITELIST]) ∧
    (∀ d0 d1, dictLookup d0 "" = some [] → catch_all_step d0 = some d1 →
      dictLookup d1 "" = some [TAG_BLACKLIST]) ∧
    (∀ dF ts, ("", ts) ∈ dF → csv_line "" ts ∈ generate_csv dF) := by
  obtain ⟨-, hkeys, hpub, hpriv⟩ := build_universe_spec hb
  refine ⟨?_, ?_, ?_, ?_⟩
  · intro l hl hns hstrip
    have hmem : "" ∈ read_lines priv := mem_read_lines_iff.mpr ⟨l, hl, hns, hstrip.symm⟩
    exact ⟨(hkeys "").mpr (Or.inr hmem), hpriv "" hmem⟩
  · intro l hl hns hstrip
    have hmem : "" ∈ read_lines pub := mem_read_lines_iff.mpr ⟨l, hl, hns, hstrip.symm⟩
    exact ⟨(hkeys "").mpr (Or.inl hmem), hpub "" hmem⟩
  · intro d0 d1 h0 hc
    have hpair : ("", []) ∈ d0 := pair_mem_of_dictLookup h0
    have hin : "" ∈ filter_dict_keys IS_UNASSIGNED d0 :=
      mem_filter_dict_keys_of_pair hpair (by simp [IS_UNASSIGNED])
    have hc' : assign_tag TAG_BLACKLIST (filter_dict_keys IS_UNASSIGNED d0) d0 = some d1 := hc
    rw [dictLookup_assign_tag hc' "", if_pos hin, h0]
    rfl
  · intro dF ts hm
    exact csv_line_mem_generate_csv hm

theorem blank_line_entry_spec_witness :
    "" ∈ dictKeys [("A", [TAG_WHITELIST]), ("", []), ("B", [])] ∧
    dictLookup [("A", [TAG_WHITELIST]), ("", []), ("B", [])] "" = some [] :=
  (blank_line_entry_spec ["A"] [" ", "B"] [("A", [TAG_WHITELIST]), ("", []), ("B", [])]
    (by decide)).1 " " (by decide) (by decide) (by decide)

/-- C1.  Whenever the pipeline's pre-catch-all passes succeed, the catch-all
(and hence the whole pipeline) succeeds; it adds `blacklist` to exactly the
entries whose tag set is empty at that moment and leaves every other binding
untouched, the key set is unchanged, and afterwards every entry of the
universe has a non-empty tag set. -/
theorem main_pipeline_catch_all_spec (pub priv : List String) (csvs : List (List String))
    (tag_files conflict_files : String → List (List String)) (d0 : EntriesDict)
    (h : main_before_catch_all pub priv csvs tag_files conflict_files = some d0) :
    ∃ d1, main_pipeline pub priv csvs tag_files conflict_files = some d1 ∧
      dictKeys d1 = dictKeys d0 ∧
      (∀ e, dictLookup d0 e = some [] → dictLookup d1 e = some [TAG_BLACKLIST]) ∧
      (∀ e ts, dictLookup d0 e = some ts → ts ≠ [] → dictLookup d1 e = some ts) ∧
      (∀ e ts, dictLookup d1 e = some ts → ts ≠ []) := by
  obtain ⟨db, hdb, hkeq⟩ := main_before_catch_all_keys h
  have hnd : (dictKeys d0).Nodup := by
    rw [hkeq]
    exact (build_universe_spec hdb).1
  obtain ⟨d1, hc⟩ : ∃ d1, catch_all_step d0 = some d1 := ⟨_, catch_all_step_eq_some d0⟩
  have hchar := catch_all_step_lookup hnd hc
  have hc' : assign_tag TAG_BLACKLIST (filter_dict_keys IS_UNASSIGNED d0) d0 = some d1 := hc
  refine ⟨d1, ?_, dictKeys_assign_tag hc', ?_, ?_, ?_⟩
  · unfold main_pipeline
    rw [h]
    exact hc
  · intro e h0
    rw [hchar e, h0]
  · intro e ts hts hne
    rw [hchar e, hts]
    cases ts with
    | nil => exact absurd rfl hne
    | cons t r => rfl
  · intro e ts h1
    intro hts0
    subst hts0
    rw [hchar e] at h1
    cases hdl : dictLookup d0 e with
    | none =>
        rw [hdl] at h1
        cases h1
    | some ts0 =>
        rw [hdl] at h1
        cases ts0 with
        | nil =>
            simp only at h1
            injection h1 with h2
            cases h2
        | cons t r =>
            simp only at h1
            injection h1 with h2
            cases h2

theorem main_pipeline_catch_all_spec_witness :
    ∃ d1, main_pipeline ["A"] ["B"] [] (fun _ => []) (fun _ => []) = some d1 ∧
      dictKeys d1 = dictKeys [("A", [TAG_WHITELIST]), ("B", [])] ∧
      (∀ e, dictLookup [("A", [TAG_WHITELIST]), ("B", [])] e = some [] →
        dictLookup d1 e = some [TAG_BLACKLIST]) ∧
      (∀ e ts, dictLookup [("A", [TAG_WHITELIST]), ("B", [])] e = some ts → ts ≠ [] →
        dictLookup d1 e = some ts) ∧
      (∀ e ts, dictLookup d1 e = some ts → ts ≠ []) :=
  main_pipeline_catch_all_spec ["A"] ["B"] [] (fun _ => []) (fun _ => [])
    [("A", [TAG_WHITELIST]), ("B", [])] (by decide)
